import Mathlib

/-
Verification of the `travelling_salesman` crate's simulated-annealing module
against its specification.

The repository's `src/` holds only `src/simulated_annealing/mod.rs`: the two
entry points `solve` and `solve_matrix`.  They wire together
  * `get_distance_matrix` and `get_route_distance` (declared in the crate root,
    not present under `src/`), and
  * the generic annealing engine `metaheuristics::simulated_annealing::solve`
    (an external library, delegated per spec section 9),
operating on a `TravellingSalesman` state that carries the borrowed distance
matrix and the random-number generator.

Everything visible in `src/` is embedded directly; the missing pieces are
modelled from the spec (each such definition says so in its doc comment).
Numbers are modelled as rationals; the opaque numeric primitives `f64::sqrt`
and `f64::exp` are abstracted as function parameters `sqrtQ` and `expQ`, and
the cooling schedule (left open by spec section 9) as a parameter `cool`.
Wall-clock time is modelled as one abstract time unit per loop iteration, so a
`time::Duration` becomes an integer number of time units.
-/

namespace TravellingSalesmanModel

/-- A distance matrix as the Rust `Vec<Vec<f64>>`: a list of rows of rationals. -/
abbrev DMatrix := List (List ℚ)

/-- The crate's `Tour` struct: a total distance and a route of city indices. -/
structure Tour where
  distance : ℚ
  route : List ℕ
deriving Repr, DecidableEq

/-- Rust `m[i][j]` on the distance matrix, total with default 0 (every run
verified below stays in range, matching the panic-free executions). -/
def entry (m : DMatrix) (i j : ℕ) : ℚ := (m.getD i []).getD j 0

/-- Modelled from the spec: `get_distance_matrix` lives in the crate root, not
under `src/`.  Spec section 4.1: given an ordered sequence of (x,y) coordinate
pairs, produce an N by N matrix whose entry (i,j) is the Euclidean distance
between city i and city j.  The square-root primitive is abstracted as
`sqrtQ`. -/
def get_distance_matrix (sqrtQ : ℚ → ℚ) (cities : List (ℚ × ℚ)) : DMatrix :=
  cities.map (fun c1 => cities.map (fun c2 =>
    sqrtQ ((c1.1 - c2.1) ^ 2 + (c1.2 - c2.2) ^ 2)))

/-- Sum of the edge distances along a path that starts at `cur` and then
visits the cities of the list in order. -/
def pathDistance (m : DMatrix) : ℕ → List ℕ → ℚ
  | _, [] => 0
  | cur, next :: rest => entry m cur next + pathDistance m next rest

/-- Modelled from the spec: `get_route_distance` lives in the crate root, not
under `src/`.  Spec sections 3 and 8: the sum of consecutive edge distances
along the route plus the closing edge from the last city back to the first;
an empty route has distance 0. -/
def get_route_distance (m : DMatrix) (route : List ℕ) : ℚ :=
  match route with
  | [] => 0
  | c :: rest => pathDistance m c rest + entry m (rest.getLastD c) c

/-- Modelled from the spec: the random-number source is out of scope (spec
section 1); the core only requires a source of uniform randomness.  We model
the generator state as a natural-number seed advanced by a linear congruential
step. -/
def lcg (s : ℕ) : ℕ := (1664525 * s + 1013904223) % 2 ^ 32

/-- Modelled from the spec: the uniform draw in [0,1) obtained from a seed. -/
def uniform (s : ℕ) : ℚ := ((s % 65536 : ℕ) : ℚ) / 65536

/-- Modelled from the spec: AcceptanceCriterion (spec section 4.5), not under
`src/` (it lives inside the delegated annealing engine).  Given current cost,
candidate cost and temperature, decide accept/reject; returns the decision and
the seed after the call, consuming one uniform draw per worsening candidate. -/
def acceptStep (expQ : ℚ → ℚ) (cCur cCand T : ℚ) (s : ℕ) : Bool × ℕ :=
  if cCand ≤ cCur then (true, s)
  else (decide (0 < T) && decide (uniform s < expQ (-(cCand - cCur) / T)), lcg s)

/-- Modelled from the spec: MoveGenerator (spec section 4.3), not under
`src/`.  Pick two distinct positions i < j in [0,N) from the randomness
source and reverse the sub-segment between them; for N < 2 return the route
unchanged.  Returns the new route and the seed after the two draws. -/
def tweakRoute (route : List ℕ) (s : ℕ) : List ℕ × ℕ :=
  let n := route.length
  if n < 2 then (route, s)
  else
    let p := s % n
    let s1 := lcg s
    let q := (p + 1 + s1 % (n - 1)) % n
    let i := min p q
    let j := max p q
    (route.take i ++ ((route.drop i).take (j + 1 - i)).reverse ++ route.drop (j + 1),
     lcg s1)

/-- The crate's `TravellingSalesman` search state threaded through the engine:
the borrowed distance matrix, the current route, the best route recorded, and
the random-number generator. -/
structure SearchState where
  distance_matrix : DMatrix
  route : List ℕ
  best : List ℕ
  rng : ℕ
deriving Repr, DecidableEq

/-- Modelled from the spec: initial Tour construction (spec section 4.6: an
arbitrary valid permutation, e.g. city order as given). -/
def generate_candidate (m : DMatrix) : List ℕ := List.range m.length

/-- The `TravellingSalesman` value built by `solve` and `solve_matrix` in
`src/src/simulated_annealing/mod.rs` before the engine runs, together with the
engine's initial candidate. -/
def tsp_state (m : DMatrix) (rng : ℕ) : SearchState :=
  { distance_matrix := m
    route := generate_candidate m
    best := generate_candidate m
    rng := rng }

/-- Modelled from the spec: one iteration of the AnnealingEngine loop (spec
section 4.6) at temperature `T`: generate a candidate neighbour, evaluate its
cost, query the acceptance criterion, move if accepted, and record the best
tour seen. -/
def annealStep (expQ : ℚ → ℚ) (T : ℚ) (st : SearchState) : SearchState :=
  let tw := tweakRoute st.route st.rng
  let cCur := get_route_distance st.distance_matrix st.route
  let cCand := get_route_distance st.distance_matrix tw.1
  let acc := acceptStep expQ cCur cCand T tw.2
  let route2 := if acc.1 then tw.1 else st.route
  let best2 :=
    if get_route_distance st.distance_matrix route2 <
        get_route_distance st.distance_matrix st.best
    then route2 else st.best
  { distance_matrix := st.distance_matrix
    route := route2
    best := best2
    rng := acc.2 }

/-- Modelled from the spec: the time-bounded loop (spec section 4.6), with
wall-clock time modelled as one time unit per iteration.  `total` is the fuel
derived from the budget and `k` the iterations remaining; the temperature
comes from the cooling schedule `cool` applied to the elapsed fraction. -/
def annealLoop (expQ cool : ℚ → ℚ) (total : ℕ) : ℕ → SearchState → SearchState
  | 0, st => st
  | k + 1, st =>
      annealLoop expQ cool total k
        (annealStep expQ (cool (((total - (k + 1) : ℕ) : ℚ) / (total : ℚ))) st)

/-- Modelled from the spec: budget-to-fuel conversion.  A zero or negative
budget yields no iterations (spec section 6); a positive budget of `b` time
units runs `b` iterations. -/
def fuelOf (budget : ℤ) : ℕ := budget.toNat

/-- Modelled from the spec: the delegated annealing engine
`metaheuristics::simulated_annealing::solve` (spec section 4.6).  If N = 0 the
engine short-circuits immediately, without invoking any move or acceptance
logic (spec section 4.6, failure semantics); otherwise it runs the
time-bounded loop and returns the final state, whose `best` field is the best
route recorded across the run. -/
def simulated_annealing_solve (expQ cool : ℚ → ℚ) (st0 : SearchState)
    (runtime : ℤ) : SearchState :=
  if st0.distance_matrix.length = 0 then st0
  else annealLoop expQ cool (fuelOf runtime) (fuelOf runtime) st0

/-- Shallow embedding of `solve_matrix` from `src/src/simulated_annealing/mod.rs`:
build the `TravellingSalesman` state from the borrowed matrix and the rng, run
the external annealing engine on it, and package the best candidate as a
`Tour` whose distance is recomputed by `get_route_distance` from the state's
matrix. -/
def solve_matrix (expQ cool : ℚ → ℚ) (distance_matrix : DMatrix)
    (runtime : ℤ) (rng : ℕ) : Tour :=
  let stF := simulated_annealing_solve expQ cool (tsp_state distance_matrix rng) runtime
  { distance := get_route_distance stF.distance_matrix stF.best
    route := stF.best }

/-- Shallow embedding of `solve` from `src/src/simulated_annealing/mod.rs`:
build the distance matrix from the city coordinates, build the
`TravellingSalesman` state from it and the rng, run the external annealing
engine, and package the best candidate exactly as `solve_matrix` does. -/
def solve (sqrtQ expQ cool : ℚ → ℚ) (cities : List (ℚ × ℚ))
    (runtime : ℤ) (rng : ℕ) : Tour :=
  let stF := simulated_annealing_solve expQ cool
    (tsp_state (get_distance_matrix sqrtQ cities) rng) runtime
  { distance := get_route_distance stF.distance_matrix stF.best
    route := stF.best }

/-- A route is tour-valid for N cities when it is a permutation of the indices
0, 1, ..., N-1: every index in [0,N) appears exactly once. -/
def ValidRoute (n : ℕ) (route : List ℕ) : Prop := route.Perm (List.range n)

instance (n : ℕ) (route : List ℕ) : Decidable (ValidRoute n route) := by
  unfold ValidRoute
  infer_instance

/-- The spec's independent recomputation of a tour's length (spec section 8):
the sum of the matrix entries over consecutive pairs of cities in the route,
plus the closing edge from the last city back to the first, written directly
as a sum over the route zipped with its rotation by one. -/
def spec_recomputed_distance (m : DMatrix) (route : List ℕ) : ℚ :=
  ((route.zip (route.rotate 1)).map (fun p => entry m p.1 p.2)).sum

/-- A pre-supplied matrix is square when every row's length equals the number
of rows (spec section 7). -/
def SquareMatrix (m : DMatrix) : Prop := ∀ row ∈ m, row.length = m.length

instance (m : DMatrix) : Decidable (SquareMatrix m) := by
  unfold SquareMatrix
  infer_instance

theorem take_reverse_drop_perm (l : List ℕ) (i k : ℕ) :
    (l.take i ++ ((l.drop i).take k).reverse ++ l.drop (i + k)).Perm l := by
  have hsplit : l.drop i = (l.drop i).take k ++ (l.drop i).drop k := by
    simp
  have hdd : (l.drop i).drop k = l.drop (i + k) := by
    rw [List.drop_drop, Nat.add_comm]
  calc
    (l.take i ++ ((l.drop i).take k).reverse ++ l.drop (i + k)).Perm
        (l.take i ++ ((l.drop i).take k ++ l.drop (i + k))) := by
      rw [List.append_assoc]
      exact (List.Perm.append_left _ ((List.reverse_perm _).append_right _))
    _ = l.take i ++ l.drop i := by rw [← hdd, ← hsplit]
    _ = l := List.take_append_drop i l

theorem tweakRoute_perm (route : List ℕ) (s : ℕ) :
    ((tweakRoute route s).1).Perm route := by
  unfold tweakRoute
  by_cases h : route.length < 2
  · simp [h]
  · simp only [h, if_false]
    set p := s % route.length with hp
    set q := (p + 1 + lcg s % (route.length - 1)) % route.length with hq
    have hij : min p q + (max p q + 1 - min p q) = max p q + 1 := by
      omega
    have := take_reverse_drop_perm route (min p q) (max p q + 1 - min p q)
    rw [hij] at this
    simpa using this

theorem annealStep_route_perm (expQ : ℚ → ℚ) (T : ℚ) (st : SearchState) :
    ((annealStep expQ T st).route).Perm st.route := by
  by_cases h : (acceptStep expQ (get_route_distance st.distance_matrix st.route)
      (get_route_distance st.distance_matrix (tweakRoute st.route st.rng).1) T
      (tweakRoute st.route st.rng).2).1
  · simp only [annealStep, h, if_true]
    exact tweakRoute_perm st.route st.rng
  · simp only [annealStep, h]
    simp

theorem annealStep_matrix (expQ : ℚ → ℚ) (T : ℚ) (st : SearchState) :
    (annealStep expQ T st).distance_matrix = st.distance_matrix := rfl

theorem annealStep_best (expQ : ℚ → ℚ) (T : ℚ) (st : SearchState) :
    (annealStep expQ T st).best = (annealStep expQ T st).route ∨
    (annealStep expQ T st).best = st.best := by
  by_cases h : get_route_distance st.distance_matrix
      (if (acceptStep expQ (get_route_distance st.distance_matrix st.route)
        (get_route_distance st.distance_matrix (tweakRoute st.route st.rng).1) T
        (tweakRoute st.route st.rng).2).1 then (tweakRoute st.route st.rng).1
        else st.route) <
      get_route_distance st.distance_matrix st.best
  · left
    simp only [annealStep, h, if_true]
  · right
    simp only [annealStep, h, if_false]

/-- The loop invariant: the matrix is never written, and the current and best
routes stay permutations of the initial index range. -/
theorem annealLoop_invariant (expQ cool : ℚ → ℚ) (total : ℕ) :
    ∀ (k : ℕ) (st : SearchState),
      (annealLoop expQ cool total k st).distance_matrix = st.distance_matrix ∧
      ((annealLoop expQ cool total k st).route.Perm st.route) ∧
      ((annealLoop expQ cool total k st).best = st.best ∨
        (annealLoop expQ cool total k st).best.Perm st.route) := by
  intro k
  induction k with
  | zero =>
      intro st
      exact ⟨rfl, List.Perm.refl _, Or.inl rfl⟩
  | succ n ih =>
      intro st
      set T := cool (((total - (n + 1) : ℕ) : ℚ) / (total : ℚ)) with hT
      have hstep := ih (annealStep expQ T st)
      have hmat : (annealStep expQ T st).distance_matrix = st.distance_matrix :=
        annealStep_matrix expQ T st
      have hroute : ((annealStep expQ T st).route).Perm st.route :=
        annealStep_route_perm expQ T st
      have hbest := annealStep_best expQ T st
      refine ⟨?_, ?_, ?_⟩
      · show (annealLoop expQ cool total n (annealStep expQ T st)).distance_matrix =
          st.distance_matrix
        rw [hstep.1, hmat]
      · show ((annealLoop expQ cool total n (annealStep expQ T st)).route).Perm st.route
        exact hstep.2.1.trans hroute
      · show (annealLoop expQ cool total n (annealStep expQ T st)).best = st.best ∨
          ((annealLoop expQ cool total n (annealStep expQ T st)).best).Perm st.route
        rcases hstep.2.2 with heq | hperm
        · rw [heq]
          rcases hbest with hb | hb
          · right
            rw [hb]
            exact hroute
          · left
            exact hb
        · right
          exact hperm.trans hroute

theorem engine_matrix_frame (expQ cool : ℚ → ℚ) (st0 : SearchState) (runtime : ℤ) :
    (simulated_annealing_solve expQ cool st0 runtime).distance_matrix =
      st0.distance_matrix := by
  unfold simulated_annealing_solve
  by_cases h : st0.distance_matrix.length = 0
  · simp [h]
  · simp only [h, if_false]
    exact (annealLoop_invariant expQ cool (fuelOf runtime) (fuelOf runtime) st0).1

theorem engine_best_perm (expQ cool : ℚ → ℚ) (m : DMatrix) (rng : ℕ) (runtime : ℤ) :
    ((simulated_annealing_solve expQ cool (tsp_state m rng) runtime).best).Perm
      (List.range m.length) := by
  unfold simulated_annealing_solve
  by_cases h : (tsp_state m rng).distance_matrix.length = 0
  · simp only [h, if_true]
    exact List.Perm.refl _
  · simp only [h, if_false]
    have hinv := annealLoop_invariant expQ cool (fuelOf runtime) (fuelOf runtime)
      (tsp_state m rng)
    rcases hinv.2.2 with heq | hperm
    · rw [heq]
      exact List.Perm.refl _
    · exact hperm

theorem solve_matrix_route_perm (expQ cool : ℚ → ℚ) (m : DMatrix)
    (runtime : ℤ) (rng : ℕ) :
    ((solve_matrix expQ cool m runtime rng).route).Perm (List.range m.length) := by
  unfold solve_matrix
  exact engine_best_perm expQ cool m rng runtime

theorem solve_route_perm (sqrtQ expQ cool : ℚ → ℚ) (cities : List (ℚ × ℚ))
    (runtime : ℤ) (rng : ℕ) :
    ((solve sqrtQ expQ cool cities runtime rng).route).Perm
      (List.range cities.length) := by
  unfold solve
  have h := engine_best_perm expQ cool (get_distance_matrix sqrtQ cities) rng runtime
  simpa [get_distance_matrix] using h

theorem zip_rotate_sum (m : DMatrix) (first : ℕ) :
    ∀ (rest : List ℕ) (cur : ℕ),
      (((cur :: rest).zip (rest ++ [first])).map (fun p => entry m p.1 p.2)).sum =
        pathDistance m cur rest + entry m (rest.getLastD cur) first := by
  intro rest
  induction rest with
  | nil =>
      intro cur
      simp [pathDistance]
  | cons x xs ih =>
      intro cur
      have hlast : (x :: xs).getLastD cur = xs.getLastD x := List.getLastD_cons _ _ _
      calc
        (((cur :: x :: xs).zip ((x :: xs) ++ [first])).map
            (fun p => entry m p.1 p.2)).sum =
            entry m cur x +
              (((x :: xs).zip (xs ++ [first])).map (fun p => entry m p.1 p.2)).sum := by
          simp
        _ = entry m cur x + (pathDistance m x xs + entry m (xs.getLastD x) first) := by
          rw [ih x]
        _ = pathDistance m cur (x :: xs) + entry m ((x :: xs).getLastD cur) first := by
          rw [hlast, pathDistance]
          ring

theorem get_route_distance_eq_spec_recomputed (m : DMatrix) (route : List ℕ) :
    get_route_distance m route = spec_recomputed_distance m route := by
  cases route with
  | nil => simp [get_route_distance, spec_recomputed_distance]
  | cons c rest =>
      unfold get_route_distance spec_recomputed_distance
      rw [List.rotate_cons_succ, List.rotate_zero, zip_rotate_sum]

theorem annealLoop_zero (expQ cool : ℚ → ℚ) (total : ℕ) (st : SearchState) :
    annealLoop expQ cool total 0 st = st := rfl

theorem engine_zero_fuel (expQ cool : ℚ → ℚ) (st0 : SearchState) (runtime : ℤ)
    (h : fuelOf runtime = 0) :
    simulated_annealing_solve expQ cool st0 runtime = st0 := by
  unfold simulated_annealing_solve
  rw [h]
  split
  · rfl
  · exact annealLoop_zero expQ cool 0 st0

theorem get_distance_matrix_entry (sqrtQ : ℚ → ℚ) (cities : List (ℚ × ℚ))
    (i j : ℕ) (hi : i < cities.length) (hj : j < cities.length) :
    entry (get_distance_matrix sqrtQ cities) i j =
      sqrtQ (((cities.getD i (0, 0)).1 - (cities.getD j (0, 0)).1) ^ 2 +
        ((cities.getD i (0, 0)).2 - (cities.getD j (0, 0)).2) ^ 2) := by
  unfold entry get_distance_matrix
  have hi' : i < (cities.map (fun c1 => cities.map (fun c2 =>
      sqrtQ ((c1.1 - c2.1) ^ 2 + (c1.2 - c2.2) ^ 2)))).length := by
    simpa using hi
  rw [List.getD_eq_getElem _ _ hi', List.getElem_map]
  have hj' : j < (cities.map (fun c2 =>
      sqrtQ ((cities[i].1 - c2.1) ^ 2 + (cities[i].2 - c2.2) ^ 2))).length := by
    simpa using hj
  rw [List.getD_eq_getElem _ _ hj', List.getElem_map]
  rw [List.getD_eq_getElem _ _ hi, List.getD_eq_getElem _ _ hj]

theorem get_distance_matrix_symm (sqrtQ : ℚ → ℚ) (cities : List (ℚ × ℚ))
    (i j : ℕ) (hi : i < cities.length) (hj : j < cities.length) :
    entry (get_distance_matrix sqrtQ cities) i j =
      entry (get_distance_matrix sqrtQ cities) j i := by
  rw [get_distance_matrix_entry sqrtQ cities i j hi hj,
    get_distance_matrix_entry sqrtQ cities j i hj hi]
  congr 1
  ring

theorem perm_pair {l : List ℕ} {a b : ℕ} (h : l.Perm [a, b]) :
    l = [a, b] ∨ l = [b, a] := by
  have hlen : l.length = 2 := by simpa using h.length_eq
  match l, hlen with
  | [x, y], _ =>
      have hx : x ∈ [a, b] := h.mem_iff.mp (by simp)
      have hy : y ∈ [a, b] := h.mem_iff.mp (by simp)
      simp only [List.mem_cons, List.mem_singleton, List.not_mem_nil, or_false] at hx hy
      rcases hx with hx | hx <;> rcases hy with hy | hy
      · have h2 : [a, a].Perm [a, b] := by
          rw [hx, hy] at h
          exact h
        have hb : b ∈ [a, a] := h2.mem_iff.mpr (by simp)
        have hb2 : b = a := by simpa using hb
        left
        rw [hx, hy, hb2]
      · left
        rw [hx, hy]
      · right
        rw [hx, hy]
      · have h2 : [b, b].Perm [a, b] := by
          rw [hx, hy] at h
          exact h
        have ha : a ∈ [b, b] := h2.mem_iff.mpr (by simp)
        have ha2 : a = b := by simpa using ha
        left
        rw [hx, hy, ha2]

theorem solve_matrix_distance_eq (expQ cool : ℚ → ℚ) (m : DMatrix)
    (runtime : ℤ) (rng : ℕ) :
    (solve_matrix expQ cool m runtime rng).distance =
      get_route_distance m (solve_matrix expQ cool m runtime rng).route := by
  show get_route_distance
      (simulated_annealing_solve expQ cool (tsp_state m rng) runtime).distance_matrix
      (simulated_annealing_solve expQ cool (tsp_state m rng) runtime).best =
    get_route_distance m
      (simulated_annealing_solve expQ cool (tsp_state m rng) runtime).best
  rw [engine_matrix_frame]
  rfl

theorem solve_distance_eq (sqrtQ expQ cool : ℚ → ℚ) (cities : List (ℚ × ℚ))
    (runtime : ℤ) (rng : ℕ) :
    (solve sqrtQ expQ cool cities runtime rng).distance =
      get_route_distance (get_distance_matrix sqrtQ cities)
        (solve sqrtQ expQ cool cities runtime rng).route := by
  show get_route_distance
      (simulated_annealing_solve expQ cool
        (tsp_state (get_distance_matrix sqrtQ cities) rng) runtime).distance_matrix
      (simulated_annealing_solve expQ cool
        (tsp_state (get_distance_matrix sqrtQ cities) rng) runtime).best =
    get_route_distance (get_distance_matrix sqrtQ cities)
      (simulated_annealing_solve expQ cool
        (tsp_state (get_distance_matrix sqrtQ cities) rng) runtime).best
  rw [engine_matrix_frame]
  rfl

theorem solve_matrix_zero_fuel (expQ cool : ℚ → ℚ) (m : DMatrix)
    (b : ℤ) (rng : ℕ) (h : fuelOf b = 0) :
    solve_matrix expQ cool m b rng =
      { distance := get_route_distance m (generate_candidate m)
        route := generate_candidate m } := by
  simp only [solve_matrix]
  rw [engine_zero_fuel expQ cool (tsp_state m rng) b h]
  rfl

/-- C1: for every input accepted by `solve` or `solve_matrix` (N cities or an
N by N matrix) and every time budget, the `route` field of the returned `Tour`
is a permutation of the indices 0..N-1: every index in [0,N) appears exactly
once, with no duplicates and no omissions. -/
theorem route_is_permutation (sqrtQ expQ cool : ℚ → ℚ) (m : DMatrix)
    (cities : List (ℚ × ℚ)) (runtime : ℤ) (rng : ℕ) :
    (ValidRoute m.length (solve_matrix expQ cool m runtime rng).route ∧
      (solve_matrix expQ cool m runtime rng).route.Nodup ∧
      ∀ i, i ∈ (solve_matrix expQ cool m runtime rng).route ↔ i < m.length) ∧
    (ValidRoute cities.length (solve sqrtQ expQ cool cities runtime rng).route ∧
      (solve sqrtQ expQ cool cities runtime rng).route.Nodup ∧
      ∀ i, i ∈ (solve sqrtQ expQ cool cities runtime rng).route ↔
        i < cities.length) := by
  have h1 := solve_matrix_route_perm expQ cool m runtime rng
  have h2 := solve_route_perm sqrtQ expQ cool cities runtime rng
  refine ⟨⟨h1, ?_, ?_⟩, ⟨h2, ?_, ?_⟩⟩
  · exact h1.nodup_iff.mpr (List.nodup_range _)
  · intro i
    rw [h1.mem_iff, List.mem_range]
  · exact h2.nodup_iff.mpr (List.nodup_range _)
  · intro i
    rw [h2.mem_iff, List.mem_range]

/-- C2: the `distance` field returned by `solve` and `solve_matrix` equals the
sum of the distance-matrix entries over consecutive pairs of cities in the
returned route plus the closing edge, recomputed independently from the
matrix; the equality is exact, hence within a 1e-9 relative tolerance. -/
theorem distance_matches_recomputation (sqrtQ expQ cool : ℚ → ℚ) (m : DMatrix)
    (cities : List (ℚ × ℚ)) (runtime : ℤ) (rng : ℕ) :
    ((solve_matrix expQ cool m runtime rng).distance =
        spec_recomputed_distance m (solve_matrix expQ cool m runtime rng).route ∧
      |(solve_matrix expQ cool m runtime rng).distance -
          spec_recomputed_distance m (solve_matrix expQ cool m runtime rng).route| ≤
        1 / 10 ^ 9 *
          |spec_recomputed_distance m (solve_matrix expQ cool m runtime rng).route|) ∧
    ((solve sqrtQ expQ cool cities runtime rng).distance =
        spec_recomputed_distance (get_distance_matrix sqrtQ cities)
          (solve sqrtQ expQ cool cities runtime rng).route ∧
      |(solve sqrtQ expQ cool cities runtime rng).distance -
          spec_recomputed_distance (get_distance_matrix sqrtQ cities)
            (solve sqrtQ expQ cool cities runtime rng).route| ≤
        1 / 10 ^ 9 *
          |spec_recomputed_distance (get_distance_matrix sqrtQ cities)
            (solve sqrtQ expQ cool cities runtime rng).route|) := by
  have e1 : (solve_matrix expQ cool m runtime rng).distance =
      spec_recomputed_distance m (solve_matrix expQ cool m runtime rng).route := by
    rw [solve_matrix_distance_eq, get_route_distance_eq_spec_recomputed]
  have e2 : (solve sqrtQ expQ cool cities runtime rng).distance =
      spec_recomputed_distance (get_distance_matrix sqrtQ cities)
        (solve sqrtQ expQ cool cities runtime rng).route := by
    rw [solve_distance_eq, get_route_distance_eq_spec_recomputed]
  refine ⟨⟨e1, ?_⟩, ⟨e2, ?_⟩⟩
  · rw [e1, sub_self, abs_zero]
    positivity
  · rw [e2, sub_self, abs_zero]
    positivity

/-- C4: for the empty input (no cities, or an empty matrix) and any time
budget and random seed, `solve` and `solve_matrix` return the Tour with empty
route and distance 0; the result does not depend on the budget, the
randomness, or the move and acceptance parameters, reflecting the engine's
immediate short-circuit at N = 0. -/
theorem empty_input_returns_empty_tour (sqrtQ expQ cool : ℚ → ℚ)
    (runtime : ℤ) (rng : ℕ) :
    solve sqrtQ expQ cool [] runtime rng = { distance := 0, route := [] } ∧
    solve_matrix expQ cool [] runtime rng = { distance := 0, route := [] } :=
  ⟨rfl, rfl⟩

/-- C9: the caller-supplied matrix is unchanged after `solve_matrix` returns:
the matrix carried through the whole search is the input matrix, as a whole
and entry by entry. -/
theorem matrix_unchanged_by_search (expQ cool : ℚ → ℚ) (m : DMatrix)
    (runtime : ℤ) (rng : ℕ) :
    (simulated_annealing_solve expQ cool (tsp_state m rng) runtime).distance_matrix
        = m ∧
    ∀ i j, entry (simulated_annealing_solve expQ cool (tsp_state m rng)
        runtime).distance_matrix i j = entry m i j := by
  have h : (simulated_annealing_solve expQ cool (tsp_state m rng)
      runtime).distance_matrix = m :=
    engine_matrix_frame expQ cool (tsp_state m rng) runtime
  exact ⟨h, fun i j => by rw [h]⟩

/-- C10: `solve` and `solve_matrix` are equivalent up to matrix construction:
under the same random stream and budget, `solve` on a coordinate list is
exactly `solve_matrix` on the matrix built from those coordinates. -/
theorem solve_refines_solve_matrix (sqrtQ expQ cool : ℚ → ℚ)
    (cities : List (ℚ × ℚ)) (runtime : ℤ) (rng : ℕ) :
    solve sqrtQ expQ cool cities runtime rng =
      solve_matrix expQ cool (get_distance_matrix sqrtQ cities) runtime rng := rfl

/-- C5: for every input and every zero or negative time budget, `solve` and
`solve_matrix` return the initial tour unchanged: the fuel is zero, no search
iteration runs, and the result is the initial permutation with its distance. -/
theorem nonpositive_budget_returns_initial_tour (sqrtQ expQ cool : ℚ → ℚ)
    (m : DMatrix) (cities : List (ℚ × ℚ)) (b : ℤ) (rng : ℕ) (hb : b ≤ 0) :
    fuelOf b = 0 ∧
    solve_matrix expQ cool m b rng =
      { distance := get_route_distance m (generate_candidate m)
        route := generate_candidate m } ∧
    solve sqrtQ expQ cool cities b rng =
      { distance := get_route_distance (get_distance_matrix sqrtQ cities)
          (generate_candidate (get_distance_matrix sqrtQ cities))
        route := generate_candidate (get_distance_matrix sqrtQ cities) } := by
  have h0 : fuelOf b = 0 := Int.toNat_of_nonpos hb
  refine ⟨h0, solve_matrix_zero_fuel expQ cool m b rng h0, ?_⟩
  exact solve_matrix_zero_fuel expQ cool (get_distance_matrix sqrtQ cities) b rng h0

/-- Witness for C5 at the concrete matrix [[0,1],[1,0]], budget -2, seed 7:
the budget is nonpositive and the initial identity tour [0,1] is returned
with its distance 2. -/
theorem nonpositive_budget_returns_initial_tour_witness :
    ((-2 : ℤ) ≤ 0) ∧
    solve_matrix id id [[(0 : ℚ), 1], [1, 0]] (-2) 7 =
      { distance := 2, route := [0, 1] } := by
  have h := nonpositive_budget_returns_initial_tour id id id
    [[(0 : ℚ), 1], [1, 0]] [] (-2) 7 (by decide)
  refine ⟨by decide, h.2.1.trans ?_⟩
  have hg : generate_candidate [[(0 : ℚ), 1], [1, 0]] = [0, 1] := rfl
  rw [hg]
  have hd : get_route_distance [[(0 : ℚ), 1], [1, 0]] [0, 1] = 2 := by
    simp [get_route_distance, pathDistance, entry, List.getLastD]
    norm_num
  rw [hd]

/-- C6: the acceptance criterion always accepts when the candidate cost is at
most the current cost and then consumes no randomness; on a worsening
candidate it consumes exactly one uniform draw in [0,1), never accepts when
the temperature is nonpositive, and otherwise accepts exactly when the draw
is below exp(-(c_cand - c_cur) / T). -/
theorem acceptance_criterion_spec (expQ : ℚ → ℚ) (cCur cCand T : ℚ) (s : ℕ) :
    (0 ≤ uniform s ∧ uniform s < 1) ∧
    (cCand ≤ cCur → acceptStep expQ cCur cCand T s = (true, s)) ∧
    (cCur < cCand →
      (acceptStep expQ cCur cCand T s).2 = lcg s ∧
      (T ≤ 0 → (acceptStep expQ cCur cCand T s).1 = false) ∧
      (0 < T → ((acceptStep expQ cCur cCand T s).1 = true ↔
        uniform s < expQ (-(cCand - cCur) / T)))) := by
  refine ⟨⟨?_, ?_⟩, ?_, ?_⟩
  · exact div_nonneg (Nat.cast_nonneg _) (by norm_num)
  · rw [uniform, div_lt_one (by norm_num)]
    exact_mod_cast Nat.mod_lt s (by norm_num)
  · intro h
    simp [acceptStep, h]
  · intro h
    have hn : ¬ cCand ≤ cCur := not_le.mpr h
    refine ⟨by simp [acceptStep, hn], ?_, ?_⟩
    · intro hT
      have : decide (0 < T) = false := decide_eq_false (not_lt.mpr hT)
      simp [acceptStep, hn, this]
    · intro hT
      have : decide (0 < T) = true := decide_eq_true hT
      simp [acceptStep, hn, this]

/-- Witness for C6: with exp modelled as the constant 1/2, a worsening
candidate (cost 1 to 2) at temperature 1 and seed 0 draws uniform 0 = 0 < 1/2
and is accepted while advancing the seed by one lcg step, and an improving
candidate (cost 2 to 1) is accepted without touching the seed. -/
theorem acceptance_criterion_spec_witness :
    (acceptStep (fun _ => (1 : ℚ) / 2) 1 2 1 0).1 = true ∧
    (acceptStep (fun _ => (1 : ℚ) / 2) 1 2 1 0).2 = lcg 0 ∧
    acceptStep (fun _ => (1 : ℚ) / 2) 2 1 1 5 = (true, 5) := by
  have h := acceptance_criterion_spec (fun _ => (1 : ℚ) / 2) 1 2 1 0
  have h2 := acceptance_criterion_spec (fun _ => (1 : ℚ) / 2) 2 1 1 5
  have hw := h.2.2 (by norm_num)
  refine ⟨?_, hw.1, h2.2.1 (by norm_num)⟩
  refine (hw.2.2 (by norm_num)).mpr ?_
  rw [uniform]
  norm_num

theorem get_route_distance_pair (m : DMatrix) (a b : ℕ) :
    get_route_distance m [a, b] = entry m a b + entry m b a := by
  show pathDistance m a [b] + entry m ([b].getLastD a) a = entry m a b + entry m b a
  rw [List.getLastD_cons, List.getLastD_nil]
  simp [pathDistance]

/-- C7: for every coordinate input with exactly two cities and any budget and
seed, the returned route is a permutation of [0,1] and the returned distance
is twice the matrix entry between the two cities. -/
theorem two_city_tour (sqrtQ expQ cool : ℚ → ℚ) (cities : List (ℚ × ℚ))
    (h : cities.length = 2) (runtime : ℤ) (rng : ℕ) :
    ((solve sqrtQ expQ cool cities runtime rng).route = [0, 1] ∨
      (solve sqrtQ expQ cool cities runtime rng).route = [1, 0]) ∧
    (solve sqrtQ expQ cool cities runtime rng).distance =
      2 * entry (get_distance_matrix sqrtQ cities) 0 1 := by
  have hperm := solve_route_perm sqrtQ expQ cool cities runtime rng
  rw [h] at hperm
  have hr2 : List.range 2 = [0, 1] := rfl
  rw [hr2] at hperm
  have hcases := perm_pair hperm
  have hdist := solve_distance_eq sqrtQ expQ cool cities runtime rng
  have hsym := get_distance_matrix_symm sqrtQ cities 1 0 (by omega) (by omega)
  refine ⟨hcases, ?_⟩
  rcases hcases with hc | hc <;> rw [hdist, hc, get_route_distance_pair]
  · rw [hsym]
    ring
  · rw [hsym]
    ring

/-- Witness for C7 at the two cities (0,0) and (3,4) with budget 0 and seed 0:
the route is a permutation of [0,1] and the distance is twice the (0,1)
matrix entry. -/
theorem two_city_tour_witness :
    ([((0 : ℚ), (0 : ℚ)), (3, 4)].length = 2) ∧
    (((solve id (fun _ => (0 : ℚ)) id [((0 : ℚ), (0 : ℚ)), (3, 4)] 0 0).route
        = [0, 1] ∨
      (solve id (fun _ => (0 : ℚ)) id [((0 : ℚ), (0 : ℚ)), (3, 4)] 0 0).route
        = [1, 0]) ∧
     (solve id (fun _ => (0 : ℚ)) id [((0 : ℚ), (0 : ℚ)), (3, 4)] 0 0).distance
        = 2 * entry (get_distance_matrix id [((0 : ℚ), (0 : ℚ)), (3, 4)]) 0 1) :=
  ⟨rfl, two_city_tour id (fun _ => (0 : ℚ)) id [((0 : ℚ), (0 : ℚ)), (3, 4)]
    rfl 0 0⟩

/-- C8: distance-matrix construction from coordinates is deterministic: the
matrix threaded through the search is a function of the coordinates alone,
identical across different seeds and budgets, and its entries are exactly the
Euclidean-formula values computed from the coordinates, with no dependence on
the random-number source. -/
theorem distance_matrix_deterministic (sqrtQ expQ cool : ℚ → ℚ)
    (cities : List (ℚ × ℚ)) (b1 b2 : ℤ) (r1 r2 : ℕ) :
    (simulated_annealing_solve expQ cool
        (tsp_state (get_distance_matrix sqrtQ cities) r1) b1).distance_matrix =
      (simulated_annealing_solve expQ cool
        (tsp_state (get_distance_matrix sqrtQ cities) r2) b2).distance_matrix ∧
    ∀ i j, i < cities.length → j < cities.length →
      entry (get_distance_matrix sqrtQ cities) i j =
        sqrtQ (((cities.getD i (0, 0)).1 - (cities.getD j (0, 0)).1) ^ 2 +
          ((cities.getD i (0, 0)).2 - (cities.getD j (0, 0)).2) ^ 2) := by
  constructor
  · rw [engine_matrix_frame, engine_matrix_frame]
    rfl
  · intro i j hi hj
    exact get_distance_matrix_entry sqrtQ cities i j hi hj

/-- Witness for C8 at the cities (0,0) and (3,4) with sqrt modelled as the
identity: the (0,1) entry is the squared-distance value 25, independent of
seed and budget. -/
theorem distance_matrix_deterministic_witness :
    entry (get_distance_matrix id [((0 : ℚ), (0 : ℚ)), (3, 4)]) 0 1 = 25 := by
  have h := (distance_matrix_deterministic id id id
    [((0 : ℚ), (0 : ℚ)), (3, 4)] 0 0 0 0).2 0 1 (by norm_num) (by norm_num)
  rw [h]
  norm_num [List.getD]

/-- C3 counterexample: the matrix [[0,1,5],[1,0,5]] has 2 rows of length 3,
so it is not square, yet `solve_matrix` returns a Tour for it instead of
failing: the module has no ShapeError and the result type of `solve_matrix`
carries no error at all. -/
theorem nonsquare_returns_tour_counterexample :
    ¬ SquareMatrix [[(0 : ℚ), 1, 5], [1, 0, 5]] ∧
    solve_matrix (fun _ => (0 : ℚ)) (fun _ => (0 : ℚ))
      [[(0 : ℚ), 1, 5], [1, 0, 5]] 0 0 = { distance := 2, route := [0, 1] } := by
  refine ⟨by decide, ?_⟩
  have h := solve_matrix_zero_fuel (fun _ => (0 : ℚ)) (fun _ => (0 : ℚ))
    [[(0 : ℚ), 1, 5], [1, 0, 5]] 0 0 rfl
  refine h.trans ?_
  have hg : generate_candidate [[(0 : ℚ), 1, 5], [1, 0, 5]] = [0, 1] := rfl
  rw [hg]
  have hd : get_route_distance [[(0 : ℚ), 1, 5], [1, 0, 5]] [0, 1] = 2 := by
    simp [get_route_distance, pathDistance, entry, List.getLastD]
    norm_num
  rw [hd]

/-- C3 amended: `solve_matrix` performs no shape validation and surfaces no
ShapeError: for a non-square matrix whose rows are all long enough for every
read to stay in range (each row's length at least the number of rows N, as in
the counterexample), it builds the search state, runs the search over N city
indices, and returns a Tour whose route is a permutation of the row indices.
The wide-rows hypothesis marks the domain on which the total `entry` lookup
agrees with Rust's panicking indexing, since every index the search touches
is below N; matrices with a row shorter than N would instead panic
out-of-range, still reporting no ShapeError. -/
theorem nonsquare_still_returns_tour (expQ cool : ℚ → ℚ) (m : DMatrix)
    (b : ℤ) (rng : ℕ) (_h : ¬ SquareMatrix m)
    (_hwide : ∀ row ∈ m, m.length ≤ row.length) :
    ValidRoute m.length (solve_matrix expQ cool m b rng).route :=
  solve_matrix_route_perm expQ cool m b rng

/-- Witness for the amended C3 at the non-square matrix [[0,1,9],[1,0,9]]
(2 rows of length 3, so every read is in range): the search still runs and
returns a permutation of [0,2). -/
theorem nonsquare_still_returns_tour_witness :
    (¬ SquareMatrix [[(0 : ℚ), 1, 9], [1, 0, 9]] ∧
      ∀ row ∈ ([[(0 : ℚ), 1, 9], [1, 0, 9]] : DMatrix),
        ([[(0 : ℚ), 1, 9], [1, 0, 9]] : DMatrix).length ≤ row.length) ∧
    ValidRoute 2 (solve_matrix id id [[(0 : ℚ), 1, 9], [1, 0, 9]] 0 0).route :=
  ⟨⟨by decide, by decide⟩, nonsquare_still_returns_tour id id
    [[(0 : ℚ), 1, 9], [1, 0, 9]] 0 0 (by decide) (by decide)⟩

end TravellingSalesmanModel
